import Mathlib

/-!
Verification of the libbitcoin-system core: a shallow embedding of
src/chain/header.cpp (block-header record, wire codec, hashing, difficulty,
intrinsic and contextual validation) and src/wallet/keys/ec_scalar.cpp
(elliptic-curve scalar value type), with theorems settling the spec claims.

External collaborators (hash primitives, the curve backend, the chain-state
oracle) are abstracted as parameters; repository components that are not in
the provided sources (the compact-target codec, the stream reader, the
hash-to-integer conversion) are modelled from the specification and marked
as such in their doc comments.
-/

namespace LibbitcoinSystem

/-! ## Byte-level primitives -/

/-- Little-endian value of a byte list (least significant byte first);
the reading counterpart of the writer's little-endian integer encoding. -/
def fromLE (l : List Nat) : Nat := l.foldr (fun b acc => b + 256 * acc) 0

/-- The `k`-byte little-endian encoding of `n` (truncating modulo `256^k`),
matching `write_4_bytes_little_endian` for `k = 4`. -/
def toLE : Nat → Nat → List Nat
  | 0, _ => []
  | k + 1, n => n % 256 :: toLE k (n / 256)

/-- The `k`-byte big-endian encoding of `n` (truncating modulo `256^k`),
matching `write_8_bytes_big_endian` for `k = 8`. -/
def toBE (k n : Nat) : List Nat := (toLE k n).reverse

/-- Big-endian value of a byte list (most significant byte first). -/
def fromBE (l : List Nat) : Nat := l.foldl (fun acc b => 256 * acc + b) 0

/-- The 32-byte all-zero digest, libbitcoin's `null_hash`. -/
def null_hash32 : List Nat := List.replicate 32 0

/-! ## Scalar arithmetic: `ec_scalar.cpp`

The curve-math primitives `ec_add`, `ec_negate`, `ec_multiply` are external
collaborators; they are abstracted as a `Backend` record whose operations
return `none` exactly when the C++ primitive returns `false` (failure).
Every scalar operation is a total function: no operation raises. -/

/-- External curve-math backend: modular add / negate / multiply over
32-byte big-endian scalars, each fallible. -/
structure Backend where
  ec_add : List Nat → List Nat → Option (List Nat)
  ec_negate : List Nat → Option (List Nat)
  ec_multiply : List Nat → List Nat → Option (List Nat)

/-- An `ec_scalar`: a wrapper over a 32-byte big-endian secret encoding. -/
structure ECScalar where
  secret : List Nat
deriving DecidableEq, Repr

/-- The default-constructed scalar `ec_scalar()`, holding `null_hash`. -/
def ECScalar.zero : ECScalar := ⟨null_hash32⟩

/-- Scalar `operator==`: byte-array equality checked in reverse
(most-significant-byte-last) order, as in the C++ `std::equal` over
reversed ranges. -/
def ECScalar.eqOp (a b : ECScalar) : Bool :=
  decide (a.secret.reverse = b.secret.reverse)

/-- Scalar `operator bool`: true iff the scalar differs from `null_hash`,
using the same reverse-order comparison. -/
def ECScalar.toBool (a : ECScalar) : Bool :=
  !(ECScalar.eqOp a ⟨null_hash32⟩)

/-- Unary `operator-`: delegates to `ec_negate`; failure collapses to the
default (zero) scalar. -/
def ECScalar.negOp (B : Backend) (a : ECScalar) : ECScalar :=
  match B.ec_negate a.secret with
  | none => ECScalar.zero
  | some out => ⟨out⟩

/-- Binary `operator+`: delegates to `ec_add`; failure collapses to the
default (zero) scalar. -/
def ECScalar.addOp (B : Backend) (l r : ECScalar) : ECScalar :=
  match B.ec_add l.secret r.secret with
  | none => ECScalar.zero
  | some out => ⟨out⟩

/-- Binary `operator-`: `left + -right`, exactly as in the source. -/
def ECScalar.subOp (B : Backend) (l r : ECScalar) : ECScalar :=
  ECScalar.addOp B l (ECScalar.negOp B r)

/-- Binary `operator*`: delegates to `ec_multiply`; failure collapses to the
default (zero) scalar. -/
def ECScalar.mulOp (B : Backend) (l r : ECScalar) : ECScalar :=
  match B.ec_multiply l.secret r.secret with
  | none => ECScalar.zero
  | some out => ⟨out⟩

/-- `ec_scalar::from_int64`: zero short-circuits to the default scalar;
otherwise the absolute value is written as an 8-byte big-endian integer
(a `uint64_t`, hence the modulus) into the last 8 bytes of an otherwise
zero 32-byte buffer, and the result is negated when the input is negative. -/
def ECScalar.from_int64 (B : Backend) (v : Int) : ECScalar :=
  if v = 0 then ECScalar.zero
  else
    let secret : List Nat := List.replicate 24 0 ++ toBE 8 (v.natAbs % 2 ^ 64)
    if 0 < v then ⟨secret⟩ else ECScalar.negOp B ⟨secret⟩

/-! ## Header record: `chain/header.cpp` -/

/-- A block header: the six wire fields plus the derived `valid` flag
(`valid_` in the source), which equality ignores. -/
structure Header where
  version : Nat
  previous_block_hash : List Nat
  merkle_root : List Nat
  timestamp : Nat
  bits : Nat
  nonce : Nat
  valid : Bool
deriving DecidableEq, Repr

/-- `header::header()`: all fields zero-initialized and `valid_` false. -/
def Header.default : Header := ⟨0, null_hash32, null_hash32, 0, 0, 0, false⟩

/-- The public six-field constructor, which sets `valid_` to true. -/
def Header.ofFields (version : Nat) (prev merkle : List Nat)
    (timestamp bits nonce : Nat) : Header :=
  ⟨version, prev, merkle, timestamp, bits, nonce, true⟩

/-- `header::operator==`: compares the six wire fields; `valid_` is not
consulted. -/
def Header.eqOp (a b : Header) : Bool :=
  decide (a.version = b.version)
  && decide (a.previous_block_hash = b.previous_block_hash)
  && decide (a.merkle_root = b.merkle_root)
  && decide (a.timestamp = b.timestamp)
  && decide (a.bits = b.bits)
  && decide (a.nonce = b.nonce)

/-- `header::serialized_size`: 4 + 32 + 32 + 4 + 4 + 4 bytes. -/
def Header.serialized_size : Nat := 4 + 32 + 32 + 4 + 4 + 4

/-- `header::to_data(writer&)`: version, previous hash, merkle root,
timestamp, bits, nonce; integers little-endian, digests raw. -/
def Header.to_data (h : Header) : List Nat :=
  toLE 4 h.version ++ h.previous_block_hash ++ h.merkle_root
    ++ toLE 4 h.timestamp ++ toLE 4 h.bits ++ toLE 4 h.nonce

/-- `header::hash()`: double SHA-256 over the 80-byte serialization, the
`sha256` primitive being an external collaborator. -/
def Header.hash (sha256 : List Nat → List Nat) (h : Header) : List Nat :=
  sha256 (sha256 h.to_data)

/-! ### Stream reader and `from_data` -/

/-- Modelled from the spec: the byte-stream reader (`stream/stream.hpp`,
not under the provided sources). Reads past the end of the source
zero-fill the missing bytes (§4.2: missing bytes leave default/zero
values; §7: malformed or short input raises no error and silently yields
default field values). -/
structure Reader where
  data : List Nat
deriving DecidableEq, Repr

/-- One bounded read of `k` bytes; shortfalls are zero-filled. -/
def Reader.read_bytes (r : Reader) (k : Nat) : List Nat × Reader :=
  if k ≤ r.data.length then (r.data.take k, ⟨r.data.drop k⟩)
  else (r.data ++ List.replicate (k - r.data.length) 0, ⟨[]⟩)

/-- `read_4_bytes_little_endian`. -/
def Reader.read_4_le (r : Reader) : Nat × Reader :=
  let x := r.read_bytes 4
  (fromLE x.1, x.2)

/-- Modelled from the spec: the reader's boolean conversion, the value
`from_data` hands to the `valid` constructor argument — §4.2: the `valid`
flag is set true whenever this path is used, independent of field
plausibility; §7: short input yields default field values with no
additional invalidity signal. -/
def Reader.toBool (_ : Reader) : Bool := true

/-- `header::from_data(reader&)`: reads the six fields in wire order and
passes the reader itself (through its boolean conversion) as the `valid`
constructor argument. -/
def header_from_data_reader (r : Reader) : Header :=
  let v := r.read_4_le
  let prev := v.2.read_bytes 32
  let merkle := prev.2.read_bytes 32
  let ts := merkle.2.read_4_le
  let bits := ts.2.read_4_le
  let nonce := bits.2.read_4_le
  ⟨v.1, prev.1, merkle.1, ts.1, bits.1, nonce.1, nonce.2.toBool⟩

/-- `header::header(const data_slice&)`: decode from a byte sequence. -/
def header_from_data (bytes : List Nat) : Header :=
  header_from_data_reader ⟨bytes⟩

/-! ## Compact-target codec and difficulty -/

/-- Modelled from the spec: the compact-target codec (`chain/compact.cpp`,
not under the provided sources). The 32-bit value is a base-256
floating-point encoding — one exponent byte, three mantissa bytes, the top
mantissa bit as sign (§4.1). Returns the materialized target reduced into
the 256-bit width together with the overflow flag, raised when the
combination would exceed the 256-bit range or encodes a negative value. -/
def compact_expand (bits : Nat) : Nat × Bool :=
  let exponent := bits / 2 ^ 24
  let mantissa := bits % 2 ^ 24
  let negative := decide (2 ^ 23 ≤ mantissa)
  let value := if exponent ≤ 3 then mantissa / 256 ^ (3 - exponent)
    else mantissa * 256 ^ (exponent - 3)
  (value % 2 ^ 256, negative || decide (2 ^ 256 ≤ value))

/-- Modelled from the spec: `to_uint256`, the hash-to-integer conversion
(not under the provided sources) — the 32-byte digest is interpreted as a
256-bit big-endian integer (§4.3). -/
def to_uint256 (digest : List Nat) : Nat := fromBE digest

/-- `header::difficulty(uint32_t)`: zero on overflow; otherwise
`add1(~target / add1(target))` in wrapping 256-bit arithmetic, guarded
against a zero divisor. -/
def Header.difficulty (bits : Nat) : Nat :=
  let expanded := compact_expand bits
  if expanded.2 then 0
  else
    let target := expanded.1
    let divisor := (target + 1) % 2 ^ 256
    if divisor = 0 then 0 else ((2 ^ 256 - 1 - target) / divisor + 1) % 2 ^ 256

/-! ## Proof-of-work and timestamp checks

`is_invalid_proof_of_work` initializes a function-local `static const`
`pow_limit` from the first call's limit argument; the `static` is made
explicit as an `Option Nat` threaded in and out of the function. The
timestamp check likewise latches its `static const two_hours`, and reads
the wall clock, passed here as an explicit `now` in Unix seconds. -/

/-- `header::is_invalid_proof_of_work`: overflowed bits, a target below
one or above the (latched) limit target, or a proof hash exceeding the
target. The proof hash is the scrypt hash of the 80-byte encoding when
`scrypt` is set, else the double-SHA-256 content hash. -/
def Header.is_invalid_proof_of_work (sha256 scrypt_hash : List Nat → List Nat)
    (h : Header) (proof_of_work_limit : Nat) (scrypt : Bool)
    (st : Option Nat) : Bool × Option Nat :=
  let bits := compact_expand h.bits
  let pow_limit := st.getD (compact_expand proof_of_work_limit).1
  if bits.2 then (true, some pow_limit)
  else if bits.1 < 1 ∨ pow_limit < bits.1 then (true, some pow_limit)
  else (decide (bits.1 <
    to_uint256 (if scrypt then scrypt_hash h.to_data else h.hash sha256)),
    some pow_limit)

/-- The per-call reading of §4.3 as the claim states it, with the limit
target supplied directly: invalid iff the bits decode overflowed, the
target is zero, the target exceeds the limit target, or the proof hash
(interpreted as a 256-bit big-endian integer) exceeds the target. -/
def pow_invalid_spec_limit (sha256 scrypt_hash : List Nat → List Nat)
    (h : Header) (limit_target : Nat) (scrypt : Bool) : Bool :=
  (compact_expand h.bits).2
  || decide ((compact_expand h.bits).1 = 0)
  || decide (limit_target < (compact_expand h.bits).1)
  || decide ((compact_expand h.bits).1 <
      to_uint256 (if scrypt then scrypt_hash h.to_data else h.hash sha256))

/-- The per-call reading of §4.3 with the limit target decoded, via the
compact codec, from the limit argument of the very call. -/
def pow_invalid_spec (sha256 scrypt_hash : List Nat → List Nat)
    (h : Header) (proof_of_work_limit : Nat) (scrypt : Bool) : Bool :=
  pow_invalid_spec_limit sha256 scrypt_hash h
    (compact_expand proof_of_work_limit).1 scrypt

/-- `header::is_invalid_timestamp`: the header time is later than
`now + limit` seconds, the limit being latched from the first call. -/
def Header.is_invalid_timestamp (h : Header) (timestamp_limit_seconds : Nat)
    (now : Nat) (st : Option Nat) : Bool × Option Nat :=
  let two_hours := st.getD timestamp_limit_seconds
  (decide (now + two_hours < h.timestamp), some two_hours)

/-! ## Consensus validator -/

/-- The validator result codes used by `header::check` / `header::accept`. -/
inductive Code where
  | success
  | invalid_proof_of_work
  | futuristic_timestamp
  | checkpoints_failed
  | invalid_block_version
  | timestamp_too_early
  | incorrect_proof_of_work
deriving DecidableEq, Repr

/-- The chain-state oracle consumed by `header::accept`, an external
read-only collaborator (§6). -/
structure ChainState where
  is_checkpoint_conflict : List Nat → Bool
  minimum_block_version : Nat
  median_time_past : Nat
  work_required : Nat

/-- `header::check`: proof-of-work first, then the timestamp; the two
`static` latches are threaded explicitly, the timestamp one untouched when
its check is short-circuited. -/
def Header.check (sha256 scrypt_hash : List Nat → List Nat) (h : Header)
    (timestamp_limit_seconds proof_of_work_limit : Nat) (scrypt : Bool)
    (now : Nat) (stPow stTs : Option Nat) :
    Code × Option Nat × Option Nat :=
  let pow := h.is_invalid_proof_of_work sha256 scrypt_hash
    proof_of_work_limit scrypt stPow
  if pow.1 then (.invalid_proof_of_work, pow.2, stTs)
  else
    let ts := h.is_invalid_timestamp timestamp_limit_seconds now stTs
    if ts.1 then (.futuristic_timestamp, pow.2, ts.2)
    else (.success, pow.2, ts.2)

/-- `header::accept`: checkpoint conflict, then minimum version, then
median-time-past, then required work; pure in the chain state. -/
def Header.accept (sha256 : List Nat → List Nat) (h : Header)
    (state : ChainState) : Code :=
  if state.is_checkpoint_conflict (h.hash sha256) then .checkpoints_failed
  else if h.version < state.minimum_block_version then .invalid_block_version
  else if h.timestamp ≤ state.median_time_past then .timestamp_too_early
  else if h.bits ≠ state.work_required then .incorrect_proof_of_work
  else .success

/-! ## Concrete instances for witnesses and counterexamples -/

/-- A stand-in hash primitive returning the all-zero digest, used to
exhibit behaviour independent of the real primitives. -/
def dummy_hash : List Nat → List Nat := fun _ => null_hash32

/-- A header whose bits field is the mainnet limit 0x1d00ffff. -/
def pow_header : Header :=
  Header.ofFields 0 null_hash32 null_hash32 0 486604799 0

/-- The reference genesis header of §8 (digests zeroed). -/
def genesis_header : Header :=
  Header.ofFields 1 null_hash32 null_hash32 1231006505 486604799 2083236893

/-- A backend whose every operation reports failure. -/
def fail_backend : Backend :=
  ⟨fun _ _ => none, fun _ => none, fun _ _ => none⟩

/-- A backend whose negation succeeds (identity), add/multiply failing. -/
def neg_backend : Backend :=
  ⟨fun _ _ => none, fun s => some s, fun _ _ => none⟩

/-! ## Helper lemmas -/

theorem toLE_length (k n : Nat) : (toLE k n).length = k := by
  induction k generalizing n with
  | zero => rfl
  | succ k ih => simp [toLE, ih]

theorem fromLE_cons (b : Nat) (l : List Nat) :
    fromLE (b :: l) = b + 256 * fromLE l := by
  simp [fromLE]

theorem fromLE_toLE (k n : Nat) : fromLE (toLE k n) = n % 256 ^ k := by
  induction k generalizing n with
  | zero => simp [toLE, fromLE, Nat.mod_one]
  | succ k ih =>
    rw [toLE, fromLE_cons, ih, pow_succ', Nat.mod_mul]

theorem Reader.read_bytes_eq (r : Reader) (k : Nat) :
    r.read_bytes k = (r.data.take k ++ List.replicate (k - r.data.length) 0,
      ⟨r.data.drop k⟩) := by
  unfold Reader.read_bytes
  split
  · next hle =>
    have h0 : k - r.data.length = 0 := by omega
    simp [h0]
  · next hgt =>
    have h2 : r.data.length ≤ k := by omega
    simp [List.take_of_length_le h2, List.drop_eq_nil_of_le h2]

theorem header_from_data_fields (l : List Nat) :
    header_from_data l = ⟨
      fromLE (l.take 4 ++ List.replicate (4 - l.length) 0),
      (l.drop 4).take 32 ++ List.replicate (32 - (l.length - 4)) 0,
      (l.drop 36).take 32 ++ List.replicate (32 - (l.length - 36)) 0,
      fromLE ((l.drop 68).take 4 ++ List.replicate (4 - (l.length - 68)) 0),
      fromLE ((l.drop 72).take 4 ++ List.replicate (4 - (l.length - 72)) 0),
      fromLE ((l.drop 76).take 4 ++ List.replicate (4 - (l.length - 76)) 0),
      true⟩ := by
  unfold header_from_data header_from_data_reader Reader.read_4_le
    Reader.toBool
  simp only [Reader.read_bytes_eq, List.drop_drop, List.length_drop]

theorem take_drop_pad (l : List Nat) (a b : Nat) (hab : a + b ≤ 80) :
    List.take a (List.drop b (l.take 80 ++ List.replicate (80 - l.length) (0 : Nat)))
      = List.take a (List.drop b l) ++ List.replicate (a - (l.length - b)) 0 := by
  rw [List.drop_append_eq_append_drop, List.take_append_eq_append_take,
    List.drop_take, List.take_take, List.drop_replicate, List.take_replicate]
  congr 1
  · congr 1
    omega
  · congr 1
    simp only [List.length_take, List.length_drop]
    omega

theorem read_bytes_exact (pre rest : List Nat) (k : Nat)
    (hk : pre.length = k) :
    Reader.read_bytes ⟨pre ++ rest⟩ k = (pre, ⟨rest⟩) := by
  have hlen : (pre ++ rest).length = k + rest.length := by simp [hk]
  have h1 : k - (pre ++ rest).length = 0 := by omega
  rw [Reader.read_bytes_eq]
  subst hk
  simp [h1, List.take_left, List.drop_left]

theorem read_bytes_all (l : List Nat) (k : Nat) (hk : l.length = k) :
    Reader.read_bytes ⟨l⟩ k = (l, ⟨[]⟩) := by
  have := read_bytes_exact l [] k hk
  simpa using this

/-! ## Claim theorems -/

/-- C3: `accept` returns the first applicable code in the fixed order
checkpoint conflict, minimum version, median-time-past, required work,
success; in particular a state tripping both the checkpoint conflict and a
too-low version yields `checkpoints_failed`. The embedding is a pure
function of the header and the chain-state record, so no mutation occurs. -/
theorem accept_spec (sha256 : List Nat → List Nat) (h : Header)
    (s : ChainState) :
    (Header.accept sha256 h s = Code.checkpoints_failed ↔
      s.is_checkpoint_conflict (h.hash sha256) = true)
    ∧ (Header.accept sha256 h s = Code.invalid_block_version ↔
      s.is_checkpoint_conflict (h.hash sha256) = false
        ∧ h.version < s.minimum_block_version)
    ∧ (Header.accept sha256 h s = Code.timestamp_too_early ↔
      s.is_checkpoint_conflict (h.hash sha256) = false
        ∧ ¬h.version < s.minimum_block_version
        ∧ h.timestamp ≤ s.median_time_past)
    ∧ (Header.accept sha256 h s = Code.incorrect_proof_of_work ↔
      s.is_checkpoint_conflict (h.hash sha256) = false
        ∧ ¬h.version < s.minimum_block_version
        ∧ ¬h.timestamp ≤ s.median_time_past
        ∧ h.bits ≠ s.work_required)
    ∧ (Header.accept sha256 h s = Code.success ↔
      s.is_checkpoint_conflict (h.hash sha256) = false
        ∧ ¬h.version < s.minimum_block_version
        ∧ ¬h.timestamp ≤ s.median_time_past
        ∧ h.bits = s.work_required) := by
  unfold Header.accept
  by_cases c1 : s.is_checkpoint_conflict (h.hash sha256) <;>
    by_cases c2 : h.version < s.minimum_block_version <;>
      by_cases c3 : h.timestamp ≤ s.median_time_past <;>
        by_cases c4 : h.bits = s.work_required <;>
          simp [c1, c2, c3, c4]

/-- C4: `check` reports `invalid_proof_of_work` when the §4.3
proof-of-work check fails, else `futuristic_timestamp` when the §4.3
timestamp check fails, else `success`; a header failing both yields
`invalid_proof_of_work`, the proof-of-work check coming first. -/
theorem check_spec (sha256 scrypt_hash : List Nat → List Nat) (h : Header)
    (timestamp_limit_seconds proof_of_work_limit : Nat) (scrypt : Bool)
    (now : Nat) (stPow stTs : Option Nat) :
    ((Header.check sha256 scrypt_hash h timestamp_limit_seconds
        proof_of_work_limit scrypt now stPow stTs).1
      = if (Header.is_invalid_proof_of_work sha256 scrypt_hash h
            proof_of_work_limit scrypt stPow).1 then Code.invalid_proof_of_work
        else if (Header.is_invalid_timestamp h timestamp_limit_seconds now
            stTs).1 then Code.futuristic_timestamp
        else Code.success)
    ∧ ((Header.is_invalid_proof_of_work sha256 scrypt_hash h
          proof_of_work_limit scrypt stPow).1 = true
        → (Header.is_invalid_timestamp h timestamp_limit_seconds now stTs).1
          = true
        → (Header.check sha256 scrypt_hash h timestamp_limit_seconds
            proof_of_work_limit scrypt now stPow stTs).1
          = Code.invalid_proof_of_work) := by
  unfold Header.check
  by_cases p : (Header.is_invalid_proof_of_work sha256 scrypt_hash h
      proof_of_work_limit scrypt stPow).1 <;>
    by_cases t : (Header.is_invalid_timestamp h timestamp_limit_seconds now
        stTs).1 <;>
      simp [p, t]

/-- C6: the content hash is the double SHA-256 of the exact wire encoding
(hash of encode, not a field-wise composition), so two headers with
identical encodings have identical hashes. -/
theorem hash_of_encoding (sha256 : List Nat → List Nat) (h1 h2 : Header) :
    Header.hash sha256 h1 = sha256 (sha256 h1.to_data)
    ∧ (h1.to_data = h2.to_data
        → Header.hash sha256 h1 = Header.hash sha256 h2) := by
  refine ⟨rfl, fun he => ?_⟩
  unfold Header.hash
  rw [he]

/-- C8: `from_int64` of zero is the zero scalar (for every backend, so the
backend is not consulted) and converts to boolean false; a nonzero value
writes its absolute value big-endian into the low-order 8 bytes of a zero
buffer, negating through the backend when negative; hence
`from_int64 (-n) = negate (from_int64 n)` for positive `n` in range. -/
theorem from_int64_spec (B : Backend) (v : Int)
    (hlo : -(2 ^ 63) ≤ v) (hhi : v < 2 ^ 63) :
    ((∀ B2 : Backend, ECScalar.from_int64 B2 0 = ECScalar.zero)
      ∧ (ECScalar.from_int64 B 0).toBool = false)
    ∧ (v ≠ 0 → ECScalar.from_int64 B v =
        if 0 < v then ⟨List.replicate 24 0 ++ toBE 8 v.natAbs⟩
        else ECScalar.negOp B ⟨List.replicate 24 0 ++ toBE 8 v.natAbs⟩)
    ∧ (0 < v → ECScalar.from_int64 B (-v)
        = ECScalar.negOp B (ECScalar.from_int64 B v)) := by
  have habs : v.natAbs % 2 ^ 64 = v.natAbs :=
    Nat.mod_eq_of_lt (by omega)
  have hz : ∀ B2 : Backend, ECScalar.from_int64 B2 0 = ECScalar.zero :=
    fun B2 => by simp [ECScalar.from_int64]
  refine ⟨⟨hz, ?_⟩, fun hv => ?_, fun hv => ?_⟩
  · rw [hz B]
    decide
  · rw [ECScalar.from_int64, if_neg hv, habs]
  · have h1 : ¬(-v = 0) := by omega
    have h2 : ¬(0 < -v) := by omega
    have h3 : ¬(v = 0) := by omega
    simp [ECScalar.from_int64, h1, h2, h3, hv, Int.natAbs_neg]

theorem from_int64_spec_witness :
    ECScalar.from_int64 neg_backend (-5)
      = ECScalar.negOp neg_backend (ECScalar.from_int64 neg_backend 5) :=
  (from_int64_spec neg_backend 5 (by decide) (by decide)).2.2 (by decide)

/-- C9: when the backend reports failure, add, negate and multiply collapse
to the all-zero scalar instead of raising (every operation is a total
function), and subtract is add of the negation, exactly as the source
defines it. -/
theorem scalar_failure_collapses_to_zero (B : Backend) (a b : ECScalar) :
    (B.ec_add a.secret b.secret = none → ECScalar.addOp B a b = ECScalar.zero)
    ∧ (B.ec_negate b.secret = none → ECScalar.negOp B b = ECScalar.zero)
    ∧ (B.ec_multiply a.secret b.secret = none
        → ECScalar.mulOp B a b = ECScalar.zero)
    ∧ ECScalar.subOp B a b = ECScalar.addOp B a (ECScalar.negOp B b) := by
  refine ⟨fun hf => ?_, fun hf => ?_, fun hf => ?_, rfl⟩ <;>
    simp [ECScalar.addOp, ECScalar.negOp, ECScalar.mulOp, hf]

/-- C10: header equality holds iff the six wire fields agree pairwise; the
valid flag is ignored, so the default-constructed header (valid false)
compares equal to one built from explicit all-zero fields (valid true). -/
theorem header_equality_ignores_valid (h1 h2 : Header) :
    (Header.eqOp h1 h2 = true ↔
      h1.version = h2.version
        ∧ h1.previous_block_hash = h2.previous_block_hash
        ∧ h1.merkle_root = h2.merkle_root
        ∧ h1.timestamp = h2.timestamp
        ∧ h1.bits = h2.bits
        ∧ h1.nonce = h2.nonce)
    ∧ (Header.eqOp Header.default
        (Header.ofFields 0 null_hash32 null_hash32 0 0 0) = true
      ∧ Header.default.valid = false
      ∧ (Header.ofFields 0 null_hash32 null_hash32 0 0 0).valid = true) := by
  refine ⟨?_, by decide⟩
  simp [Header.eqOp, and_assoc]

theorem pow_impl_eq_latched (sha256 scrypt_hash : List Nat → List Nat)
    (h : Header) (proof_of_work_limit : Nat) (scrypt : Bool)
    (st : Option Nat) :
    Header.is_invalid_proof_of_work sha256 scrypt_hash h proof_of_work_limit
        scrypt st
      = (pow_invalid_spec_limit sha256 scrypt_hash h
          (st.getD (compact_expand proof_of_work_limit).1) scrypt,
        some (st.getD (compact_expand proof_of_work_limit).1)) := by
  unfold Header.is_invalid_proof_of_work pow_invalid_spec_limit
  rcases hb : compact_expand h.bits with ⟨t, o⟩
  cases o
  · by_cases h0 : t = 0
    · subst h0
      have hc : (0 : Nat) < 1
          ∨ st.getD (compact_expand proof_of_work_limit).1 < 0 :=
        Or.inl (by omega)
      simp [hc]
    · by_cases h1 : st.getD (compact_expand proof_of_work_limit).1 < t
      · have hc : t < 1
            ∨ st.getD (compact_expand proof_of_work_limit).1 < t :=
          Or.inr h1
        simp [hc, h1]
      · have hc : ¬(t < 1
            ∨ st.getD (compact_expand proof_of_work_limit).1 < t) := by
          omega
        simp [hc, h0, h1]
  · simp

/-- C1 (amended): `is_invalid_proof_of_work` returns true iff the bits
decode overflowed, or the decoded target is zero, or the target exceeds
the limit target, or the proof hash (big-endian) exceeds the target —
where the limit target is the one latched by the function-local `static`
from the first invocation's limit argument (the current argument decoding
only when no limit is latched yet, as on the first call, for which the
claim holds as stated). -/
theorem is_invalid_proof_of_work_spec (sha256 scrypt_hash : List Nat → List Nat)
    (h : Header) (proof_of_work_limit : Nat) (scrypt : Bool)
    (st : Option Nat) :
    Header.is_invalid_proof_of_work sha256 scrypt_hash h proof_of_work_limit
        scrypt st
      = (pow_invalid_spec_limit sha256 scrypt_hash h
          (st.getD (compact_expand proof_of_work_limit).1) scrypt,
        some (st.getD (compact_expand proof_of_work_limit).1))
    ∧ (Header.is_invalid_proof_of_work sha256 scrypt_hash h
        proof_of_work_limit scrypt none).1
      = pow_invalid_spec sha256 scrypt_hash h proof_of_work_limit scrypt := by
  refine ⟨pow_impl_eq_latched .., ?_⟩
  rw [pow_impl_eq_latched]
  rfl

/-- C1 (counterexample): with the mainnet-limit header, a first call whose
limit argument is 0x1d00ffff latches that limit; a second call passing the
stricter limit 0x1c00ffff then returns false (the proof hash, zero here,
does not exceed the target), while the claim's per-call reading demands
true, the target exceeding the second call's decoded limit. -/
theorem pow_limit_latch_counterexample :
    (Header.is_invalid_proof_of_work dummy_hash dummy_hash pow_header
        469827583 false
        (Header.is_invalid_proof_of_work dummy_hash dummy_hash pow_header
          486604799 false none).2).1
      = false
    ∧ pow_invalid_spec dummy_hash dummy_hash pow_header 469827583 false
      = true := by
  decide

/-- C2 (counterexample): the bits value 0 decodes without overflow to the
target 0, and there `difficulty` is not `floor(2^256 / (target + 1))`:
the 256-bit computation `add1(~0 / 1)` wraps to 0 while the quotient is
`2^256`. -/
theorem difficulty_zero_target_counterexample :
    compact_expand 0 = (0, false)
    ∧ Header.difficulty 0 ≠ 2 ^ 256 / (0 + 1) := by
  constructor
  · decide
  · decide

/-- C2 (amended): `difficulty` returns 0 when the decode overflows, 0 when
the decoded target is the maximum 256-bit value (the divisor `target + 1`
wraps to zero, guarding the division), 0 when the target is zero (the
computation `1 + complement(target) / (target + 1)` wraps past `2^256`),
and otherwise `1 + (complement(target) / (target + 1)) =
floor(2^256 / (target + 1))`; the division never has a zero divisor. -/
theorem difficulty_spec (bits t : Nat) (o : Bool)
    (hdec : compact_expand bits = (t, o)) :
    (o = true → Header.difficulty bits = 0)
    ∧ (o = false → t = 0 → Header.difficulty bits = 0)
    ∧ (o = false → t = 2 ^ 256 - 1 → Header.difficulty bits = 0)
    ∧ (o = false → 1 ≤ t → t < 2 ^ 256 - 1 →
        Header.difficulty bits = 2 ^ 256 / (t + 1)) := by
  unfold Header.difficulty
  rw [hdec]
  refine ⟨fun ho => ?_, fun ho ht => ?_, fun ho ht => ?_,
    fun ho h1 h2 => ?_⟩ <;> subst ho
  · simp
  · subst ht
    norm_num
  · subst ht
    have h256 : 0 < 2 ^ 256 := by positivity
    simp [Nat.sub_add_cancel (by omega : 1 ≤ 2 ^ 256), Nat.mod_self]
  · have hdiv : (t + 1) % 2 ^ 256 = t + 1 := Nat.mod_eq_of_lt (by omega)
    have hkey : (2 ^ 256 - 1 - t) / (t + 1) + 1 = 2 ^ 256 / (t + 1) := by
      rw [← Nat.add_div_right _ (by omega : 0 < t + 1)]
      congr 1
      omega
    have hlt : 2 ^ 256 / (t + 1) < 2 ^ 256 :=
      Nat.div_lt_self (by positivity) (by omega)
    simp only [Bool.false_eq_true, if_false, hdiv]
    rw [if_neg (by omega), hkey, Nat.mod_eq_of_lt hlt]

theorem difficulty_spec_witness :
    Header.difficulty 486604799 = 2 ^ 256 / (65535 * 256 ^ 26 + 1) :=
  (difficulty_spec 486604799 (65535 * 256 ^ 26) false (by decide)).2.2.2
    rfl (by decide) (by decide)

/-- C5: encoding a well-formed header yields exactly 80 bytes, laid out as
version (4 bytes little-endian), previous hash (32 raw bytes), merkle root
(32 raw bytes), timestamp, bits and nonce (4 bytes little-endian each),
and decoding those bytes yields a header equal to the original under
`operator==`. -/
theorem header_wire_roundtrip (h : Header) (hv : h.version < 2 ^ 32)
    (hp : h.previous_block_hash.length = 32)
    (hm : h.merkle_root.length = 32) (ht : h.timestamp < 2 ^ 32)
    (hb : h.bits < 2 ^ 32) (hn : h.nonce < 2 ^ 32) :
    h.to_data.length = 80
    ∧ h.to_data = toLE 4 h.version ++ h.previous_block_hash ++ h.merkle_root
        ++ toLE 4 h.timestamp ++ toLE 4 h.bits ++ toLE 4 h.nonce
    ∧ Header.eqOp (header_from_data h.to_data) h = true := by
  refine ⟨?_, rfl, ?_⟩
  · simp [Header.to_data, toLE_length, hp, hm]
  · simp only [header_from_data, header_from_data_reader, Reader.read_4_le,
      Header.to_data, List.append_assoc]
    rw [read_bytes_exact _ _ _ (toLE_length 4 h.version)]
    dsimp only
    rw [read_bytes_exact _ _ _ hp]
    dsimp only
    rw [read_bytes_exact _ _ _ hm]
    dsimp only
    rw [read_bytes_exact _ _ _ (toLE_length 4 h.timestamp)]
    dsimp only
    rw [read_bytes_exact _ _ _ (toLE_length 4 h.bits)]
    dsimp only
    rw [read_bytes_all _ _ (toLE_length 4 h.nonce)]
    dsimp only
    have h32 : (256 : Nat) ^ 4 = 2 ^ 32 := by norm_num
    simp [Header.eqOp, fromLE_toLE, h32, Nat.mod_eq_of_lt hv,
      Nat.mod_eq_of_lt ht, Nat.mod_eq_of_lt hb, Nat.mod_eq_of_lt hn]
    omega

theorem header_wire_roundtrip_witness :
    Header.eqOp (header_from_data genesis_header.to_data) genesis_header
      = true :=
  (header_wire_roundtrip genesis_header (by decide) (by decide) (by decide)
    (by decide) (by decide) (by decide)).2.2

/-- C7: decoding any byte sequence, short ones included, yields a usable
header — missing bytes default to zero, so a short input decodes to the
very same record as its zero-padded 80-byte extension — and the valid
flag is true whenever the decode path is used, independent of field
plausibility, with no additional invalidity signal for short input. -/
theorem from_data_lenient_spec (bytes : List Nat) :
    (header_from_data bytes).valid = true
    ∧ header_from_data bytes
      = header_from_data
          (bytes.take 80 ++ List.replicate (80 - bytes.length) 0) := by
  constructor
  · rw [header_from_data_fields]
  · have hpl : (bytes.take 80
        ++ List.replicate (80 - bytes.length) (0 : Nat)).length = 80 := by
      simp only [List.length_append, List.length_take, List.length_replicate]
      omega
    have e1 := take_drop_pad bytes 4 0 (by omega)
    have e2 := take_drop_pad bytes 32 4 (by omega)
    have e3 := take_drop_pad bytes 32 36 (by omega)
    have e4 := take_drop_pad bytes 4 68 (by omega)
    have e5 := take_drop_pad bytes 4 72 (by omega)
    have e6 := take_drop_pad bytes 4 76 (by omega)
    simp only [List.drop_zero, Nat.sub_zero] at e1
    rw [header_from_data_fields, header_from_data_fields, hpl]
    simp only [Header.mk.injEq, List.replicate_zero, List.append_nil,
      and_true]
    refine ⟨?_, ?_, ?_, ?_, ?_, ?_⟩
    · rw [e1]
      simp
    · rw [e2]
      simp
    · rw [e3]
      simp
    · rw [e4]
      simp
    · rw [e5]
      simp
    · rw [e6]
      simp

end LibbitcoinSystem
